import Mathlib

/-!
Verification of the fbpad multiplexer core and its bitmap font store.

The development shallowly embeds the two source files:

* `font.c`: the tinyfont loader (`font_open` over a byte stream, with
  `xread`) and the binary-search glyph lookup (`find_glyph`,
  `font_bitmap`).
* `fbpad.c`: the tag/slot show-hide state machine (`t_conf`, `t_hide`,
  `t_show`, `t_hideshow`, `t_set`, `t_split`, `peepterm`, `peepback`),
  the keyboard dispatcher (`directkey`) and the authentication gate
  (`chkpass`).

External collaborators (term_*, pad_*, scr_* calls) are modelled as an
event trace: each embedded operation returns the list of collaborator
calls it issues, in order, together with its result and the updated
multiplexer state.  Environment facts that the code merely consults
(which terminals are open, which tags are snapshot eligible, whether a
snapshot load succeeds, screen geometry) are packaged in an `Env`
record of pure functions.
-/

namespace Fbpad

/-! ## Font store (font.c)

Bytes of the resource are modelled as natural numbers; 32-bit header
fields are decoded little-endian and interpreted as two-complement
signed values, matching a little-endian machine with 4-byte `int` and
no struct padding (sig[8], ver, n, rows, cols = 24 bytes).  `malloc`
is assumed to succeed for any nonnegative size and to fail for the
huge sizes produced by converting a negative `int` to `size_t`.
Signed `int` overflow in the bitmap-size product is modelled as
wrap-around, the behaviour of the compilers fbpad targets. -/

/-- Interpret a 32-bit unsigned value as a signed two-complement `int`. -/
def toInt32 (v : Nat) : Int :=
  if v % 4294967296 < 2147483648 then (v % 4294967296 : Nat)
  else (v % 4294967296 : Nat) - 4294967296

/-- Wrap an integer to the signed 32-bit range (two-complement). -/
def wrap32 (x : Int) : Int :=
  let r := x % 4294967296
  if r < 2147483648 then r else r - 4294967296

/-- The little-endian 32-bit word stored at byte offset `off`. -/
def word32 (bs : List Nat) (off : Nat) : Nat :=
  bs.getD off 0 % 256 + 256 * (bs.getD (off + 1) 0 % 256)
    + 65536 * (bs.getD (off + 2) 0 % 256)
    + 16777216 * (bs.getD (off + 3) 0 % 256)

/-- Decode a byte buffer into little-endian signed 32-bit integers,
four bytes at a time (the in-memory layout of the `glyphs` array). -/
def decInts : List Nat → List Int
  | b0 :: b1 :: b2 :: b3 :: r =>
      toInt32 (b0 % 256 + 256 * (b1 % 256) + 65536 * (b2 % 256)
        + 16777216 * (b3 % 256)) :: decInts r
  | _ => []

/-- The `struct font` of font.c: header fields plus the two arrays. -/
structure Font where
  n : Int
  rows : Int
  cols : Int
  glyphs : List Int
  data : List Nat
  deriving DecidableEq

/-- `xread` of font.c: allocate and read exactly `len` bytes.  Returns
the buffer and the rest of the stream; a short read consumes the whole
stream and yields `none`.  A negative `len` converts to a huge
`size_t`, so allocation fails and nothing is consumed. -/
def xread (bs : List Nat) (len : Int) : Option (List Nat) × List Nat :=
  if len < 0 then (none, bs)
  else if len.toNat ≤ bs.length then (some (bs.take len.toNat), bs.drop len.toNat)
  else (none, [])

/-- Byte length of the glyph-code array read: `n * sizeof(int)`
computed in `size_t` and passed through the `int` parameter of
`xread`. -/
def glyphsLen (bs : List Nat) : Int :=
  wrap32 (4 * toInt32 (word32 bs 12))

/-- Byte length of the bitmap array read: `n * rows * cols` computed
in (wrapping) `int` arithmetic. -/
def dataLen (bs : List Nat) : Int :=
  wrap32 (wrap32 (toInt32 (word32 bs 12) * toInt32 (word32 bs 16))
    * toInt32 (word32 bs 20))

/-- `font_open` of font.c.  `none` as input models a file that cannot
be opened; otherwise the input is the byte stream of the file.  The
24-byte header is consumed first (failing if short), then the glyph
array and the bitmap array; the signature and version bytes are read
but never inspected. -/
def fontOpen (file : Option (List Nat)) : Option Font :=
  match file with
  | none => none
  | some bs =>
      if bs.length < 24 then none
      else
        let n := toInt32 (word32 bs 12)
        let rows := toInt32 (word32 bs 16)
        let cols := toInt32 (word32 bs 20)
        let rest := bs.drop 24
        let gr := xread rest (glyphsLen bs)
        let dr := xread gr.2 (dataLen bs)
        match gr.1, dr.1 with
        | some gb, some db => some ⟨n, rows, cols, decInts gb, db⟩
        | _, _ => none

/-- `find_glyph` of font.c, the loop body: binary search for `c` on
index range `[l, h)` of the glyph-code array. -/
def findGlyphAux (g : List Int) (c : Int) (l h : Nat) : Int :=
  if _hlt : l < h then
    if g.getD ((l + h) / 2) 0 = c then (((l + h) / 2 : Nat) : Int)
    else if c < g.getD ((l + h) / 2) 0 then findGlyphAux g c l ((l + h) / 2)
    else findGlyphAux g c ((l + h) / 2 + 1) h
  else -1
termination_by h - l
decreasing_by
  all_goals omega

/-- `find_glyph` of font.c: search the whole array (`l = 0`,
`h = font->n`). -/
def find_glyph (f : Font) (c : Int) : Int :=
  findGlyphAux f.glyphs c 0 f.n.toNat

/-- `font_bitmap` of font.c.  `dst` is the destination buffer; on a
hit the first `rows * cols` cells are overwritten by `memcpy` with the
stored bitmap and `0` is returned, on a miss `1` is returned and `dst`
is untouched. -/
def font_bitmap (f : Font) (dst : List Nat) (c : Int) : Int × List Nat :=
  let i := find_glyph f c
  let len := (f.rows * f.cols).toNat
  if i < 0 then (1, dst)
  else (0, (f.data.drop (i.toNat * len)).take len ++ dst.drop len)

/-! ## Multiplexer core (fbpad.c)

The show-hide state machine and the dispatcher are embedded as pure
functions over an explicit state record, returning the trace of
collaborator calls they issue.  `BRWID = 2`; `ESC = 27`;
`NTAGS = strlen(TAGS)` is the length of the configured tag list in the
environment; slots (terminal indices) range over `[0, 2*NTAGS)` with
`slot = half*NTAGS + tag`. -/

/-- Outcome flags of the external steps of `chkpass` (libssh2 calls
and sockets).  `userauthRet` is the value returned by
`libssh2_userauth_password`: zero on a verified password, negative on
a rejected one. -/
structure AuthEnv where
  initFail : Bool
  sockFail : Bool
  connFail : Bool
  sessFail : Bool
  shakeFail : Bool
  userauthRet : Int
  deriving DecidableEq

/-- Read-only environment of the multiplexer: startup configuration
and the facts about external collaborators that the control plane
consults.  `termOpen i` is `TERMOPEN(i)`, `tagSnap t` holds when the
tag character of tag `t` is in `TAGS_SAVED` (so `TERMSNAP(i)` is
`tagSnap (i % ntags)`), `scrLoadOk i` holds when `scr_load(i)` returns
zero, `colorsOk` when `term_colors(CLRFILE)` returns zero. -/
structure Env where
  tags : List Int
  fbRows : Nat
  fbCols : Nat
  crows : Nat
  ccols : Nat
  padRows : Nat
  termOpen : Nat → Bool
  tagSnap : Nat → Bool
  scrLoadOk : Nat → Bool
  colorsOk : Bool
  nolock : Bool
  auth : AuthEnv

/-- `NTAGS`. -/
def Env.n (e : Env) : Nat := e.tags.length

/-- The mutable globals of fbpad.c that the embedded operations touch.
`pass` holds the accumulated password characters (so `passlen` is its
length). -/
structure MuxState where
  tops : Nat → Nat
  split : Nat → Nat
  ctag : Nat
  ltag : Nat
  hidden : Bool
  locked : Bool
  taglock : Bool
  pass : List Int
  cmdmode : Bool
  exitit : Bool
  barstat : Int

/-- One collaborator call, as recorded in a trace.  `tHideCall` and
`tShowCall` record entry to `t_hide` and `t_show` with their
arguments; the rest are the external term_*, pad_* and scr_* calls. -/
inductive Ev where
  | tHideCall (idx : Nat) (save : Bool)
  | termHide (idx : Nat)
  | scrSnap (idx : Nat)
  | termSave (idx : Nat)
  | tShowCall (idx : Nat) (mode : Nat)
  | padConf (top left rows cols : Int)
  | termLoad (idx : Nat) (visible : Bool)
  | scrLoad (idx : Nat)
  | termRedraw (full : Bool)
  | termShow (idx : Nat)
  | padBorder (color : Nat) (width : Nat)
  | termSend (c : Int)
  | termExec (prog : Nat) (swsig : Bool)
  | termScreenshot (ext : Bool)
  | termColors
  | termScrl (k : Int)
  | listtags
  deriving DecidableEq

/-- `cterm()`: the current terminal slot. -/
def cterm (e : Env) (st : MuxState) : Nat :=
  st.tops st.ctag * e.n + st.ctag

/-- `tterm(n)`: the active terminal slot of tag `n`. -/
def tterm (e : Env) (st : MuxState) (t : Nat) : Nat :=
  st.tops t * e.n + t

/-- `aterm(n)`: the other slot of the same tag. -/
def aterm (e : Env) (i : Nat) : Nat :=
  if i < e.n then i + e.n else i - e.n

/-- `tmain()`: whether the current slot has an open session. -/
def tmain (e : Env) (st : MuxState) : Bool :=
  e.termOpen (cterm e st)

/-- A screen rectangle as given to `pad_conf` (top, left, height,
width), in the `int` arithmetic of the source. -/
structure Rect where
  top : Int
  left : Int
  height : Int
  width : Int
  deriving DecidableEq

/-- Pointwise membership in a rectangle. -/
def Rect.mem (r : Rect) (p : Int × Int) : Prop :=
  r.top ≤ p.1 ∧ p.1 < r.top + r.height ∧ r.left ≤ p.2 ∧ p.2 < r.left + r.width

instance (r : Rect) (p : Int × Int) : Decidable (r.mem p) := by
  unfold Rect.mem; infer_instance

/-- The rectangle `t_conf` computes for split mode `sp` (0 none,
1 horizontal, 2 vertical) and position `top` (`idx < NTAGS`).  `h1` is
the largest multiple of the character-cell height not exceeding half
the screen; the second pane receives the remainder minus the borders
(`BRWID = 2`). -/
def confRect (e : Env) (sp : Nat) (top : Bool) : Rect :=
  let h1 : Int := ((e.fbRows / 2 / e.crows) * e.crows : Nat)
  let h2 : Int := (e.fbRows : Int) - h1 - 4 * 2
  let w1 : Int := ((e.fbCols / 2 / e.ccols) * e.ccols : Nat)
  let w2 : Int := (e.fbCols : Int) - w1 - 4 * 2
  if sp = 0 then ⟨0, 0, (e.fbRows : Int), (e.fbCols : Int)⟩
  else if sp = 1 then
    ⟨if top then 2 else h1 + 3 * 2, 2, if top then h1 else h2,
      (e.fbCols : Int) - 2 * 2⟩
  else
    ⟨2, if top then 2 else w1 + 3 * 2, (e.fbRows : Int) - 2 * 2,
      if top then w1 else w2⟩

/-- `t_conf(idx)`: issue the `pad_conf` call for the slot, according
to the split mode of its tag.  For a split value outside 0..2 (never
produced by the code) no call is made, matching the three `if`
statements of the source. -/
def tConf (e : Env) (split : Nat → Nat) (idx : Nat) : List Ev :=
  let sp := split (idx % e.n)
  let top := idx < e.n
  if sp ≤ 2 then
    let r := confRect e sp top
    [.padConf r.top r.left r.height r.width]
  else []

/-- `t_hide(idx, save)`: release the render context.  With `save` set
and the session open the emulator state is flushed (`term_hide`) and,
if the tag is snapshot eligible, the screen is snapped; the emulator
state is saved unconditionally. -/
def tHide (e : Env) (idx : Nat) (save : Bool) : List Ev :=
  [.tHideCall idx save]
    ++ (if save && e.termOpen idx then [.termHide idx] else [])
    ++ (if save && e.termOpen idx && e.tagSnap (idx % e.n) then
          [.scrSnap idx] else [])
    ++ [.termSave idx]

/-- `t_show(idx, show)` with `show` 0 hidden, 1 visible, 2 load,
3 redraw.  Returns the effective mode together with the trace:
mode 2 degrades to 3 unless the session is open, its tag snapshot
eligible and `scr_load` succeeds (`scr_load` is attempted only when
the first two hold); any visible mode redraws, fully exactly for the
effective mode 3; modes 2 and 3 with an open session end with
`term_show`. -/
def tShow (e : Env) (split : Nat → Nat) (idx : Nat) (mode : Nat) :
    Nat × List Ev :=
  let opensnap := e.termOpen idx && e.tagSnap (idx % e.n)
  let scrTr : List Ev := if mode = 2 && opensnap then [.scrLoad idx] else []
  let mode2 : Nat :=
    if mode = 2 then (if opensnap && e.scrLoadOk idx then 2 else 3) else mode
  let rd : List Ev := if 0 < mode2 then [.termRedraw (decide (mode2 = 3))] else []
  let sh : List Ev :=
    if (mode2 = 2 || mode2 = 3) && e.termOpen idx then [.termShow idx] else []
  (mode2, [.tShowCall idx mode] ++ tConf e split idx
    ++ [.termLoad idx (decide (0 < mode))] ++ scrTr ++ rd ++ sh)

/-- `t_hideshow(oidx, save, nidx, show)`: hide `oidx`, clear the
shared border when revealing a pane of the same split tag, show
`nidx`, and draw the border when the destination tag is split. -/
def tHideshow (e : Env) (split : Nat → Nat) (oidx : Nat) (save : Bool)
    (nidx : Nat) (mode : Nat) : Nat × List Ev :=
  let otag := oidx % e.n
  let ntag := nidx % e.n
  let t1 := tHide e oidx save
  let t2 : List Ev :=
    if 0 < mode && split otag ≠ 0 && otag = ntag then [.padBorder 0 2] else []
  let r := tShow e split nidx mode
  let t4 : List Ev :=
    if 0 < mode && split ntag ≠ 0 then [.padBorder 0xff0000 2] else []
  (r.1, t1 ++ t2 ++ r.2 ++ t4)

/-- The trace of collaborator calls of a non-blocked `t_set(n)`:
same-tag switches reveal the target (split) or hide-then-load it (no
split); cross-tag switches hide the old current slot with save and
load the target, then, if the destination tag is split, bring in its
partner (mode 1 if the target was restored from a snapshot, mode 2
otherwise) and re-show the target visible. -/
def tSetTrace (e : Env) (st : MuxState) (n : Nat) : List Ev :=
  if st.ctag = n % e.n then
    if st.split (n % e.n) ≠ 0 then
      (tHideshow e st.split (cterm e st) false n 1).2
    else
      (tHideshow e st.split (cterm e st) true n 2).2
  else
    let r := tHideshow e st.split (cterm e st) true n 2
    r.2 ++
      (if st.split (n % e.n) ≠ 0 then
        (tHideshow e st.split n false (aterm e n)
          (if r.1 = 2 then 1 else 2)).2
          ++ (tHideshow e st.split (aterm e n) false n 1).2
      else [])

/-- `t_set(n)`: switch the current slot to `n`.  Returns unchanged
state and an empty trace when `n` is already current, when running in
single-command mode, or when `taglock` blocks a cross-tag switch;
otherwise performs the transition of `tSetTrace` and updates `ltag`
(cross-tag only), `ctag` and `tops`. -/
def tSet (e : Env) (st : MuxState) (n : Nat) : MuxState × List Ev :=
  if cterm e st = n || st.cmdmode then (st, [])
  else if st.taglock && decide (st.ctag ≠ n % e.n) then (st, [])
  else
    ({st with
        ltag := if st.ctag ≠ n % e.n then st.ctag else st.ltag,
        ctag := n % e.n,
        tops := fun t => if t = n % e.n then n / e.n else st.tops t},
      tSetTrace e st n)

/-- `t_split(n)`: set the split mode of the current tag, then force a
redraw of both paired slots (the partner first, then the current slot,
saving the partner on the way back). -/
def tSplit (e : Env) (st : MuxState) (m : Nat) : MuxState × List Ev :=
  let sp : Nat → Nat := fun t => if t = st.ctag then m else st.split t
  let c := cterm e st
  ({st with split := sp},
    (tHideshow e sp c false (aterm e c) 3).2
      ++ (tHideshow e sp (aterm e c) true c 3).2)

/-- `peepterm(termid)`: transiently hand the render context to a
non-current slot; the pane is made visible only when the display is
owned, the slot belongs to the current tag and that tag is split. -/
def peepterm (e : Env) (st : MuxState) (tid : Nat) : MuxState × List Ev :=
  let visible : Nat :=
    if !st.hidden && decide (st.ctag = tid % e.n)
        && decide (st.split st.ctag ≠ 0) then 1 else 0
  if tid ≠ cterm e st then
    (st, (tHideshow e st.split (cterm e st) false tid visible).2)
  else (st, [])

/-- `peepback(termid)`: hand the render context back to the current
slot (visible unless the display is hidden). -/
def peepback (e : Env) (st : MuxState) (tid : Nat) : MuxState × List Ev :=
  if tid ≠ cterm e st then
    (st, (tHideshow e st.split tid false (cterm e st)
      (if st.hidden then 0 else 1)).2)
  else (st, [])

/-- `chkpass()`: check the buffered password over a loopback ssh
session.  Each failing external step jumps to the cleanup labels with
the initial `ret = -1`; otherwise `ret` is the `userauth` result and
the final translation returns `1` for a verified password (`ret = 0`),
`ret` itself when negative, and `0` for a positive `ret`. -/
def chkpass (a : AuthEnv) : Int :=
  if a.initFail then -1
  else if a.sockFail then -1
  else if a.connFail then -1
  else if a.sessFail then -1
  else if a.shakeFail then -1
  else if a.userauthRet ≠ 0 then (if a.userauthRet < 0 then a.userauthRet else 0)
  else 1

/-- `readchar()`: one byte from the keyboard stream, `-1` when no
input is available. -/
def readchar (inp : List Int) : Int × List Int :=
  match inp with
  | [] => (-1, [])
  | c :: r => (c, r)

/-- The loop of `nterm()`: starting at slot `i`, find the next slot
that is open or equals `cur`, cycling through the `2*NTAGS` slots
(`fuel` bounds the walk; `2*NTAGS` steps always suffice). -/
def ntermAux (e : Env) (cur : Nat) : Nat → Nat → Nat
  | 0, i => i
  | fuel + 1, i =>
      if i = cur then i
      else if e.termOpen i then i
      else ntermAux e cur fuel ((i + 1) % (2 * e.n))

/-- `nterm()`: the next open slot after the current one, or the
current slot when no other is open. -/
def nterm (e : Env) (st : MuxState) : Nat :=
  ntermAux e (cterm e st) (2 * e.n) ((cterm e st + 1) % (2 * e.n))

/-- `t_exec(args, swsig)`: spawn `args` in the current slot unless it
already has an open session.  `prog` identifies the spawned command
(0 shell, 1 mail, 2 editor, 3 the single-command arguments). -/
def tExec (e : Env) (st : MuxState) (prog : Nat) (swsig : Bool) : List Ev :=
  if tmain e st then [] else [.termExec prog swsig]

/-- `togglebar()`: flip the status bar state; repaint the whole
session when it goes away, repaint the bar when it appears.
`listtags` (a pure repaint of the status row from current state) is
recorded as a single event. -/
def togglebar (st : MuxState) : MuxState × List Ev :=
  let b := -st.barstat
  ({st with barstat := b}, if b < 0 then [.termRedraw true] else [.listtags])

/-- The `STAT_RET` return sequence: repaint the bar when it is shown. -/
def statRet (st : MuxState) : List Ev :=
  if 0 < st.barstat then [.listtags] else []

/-- `strchr(tags, c)` on the configured tag characters: index of the
first occurrence; a zero byte matches the string terminator at index
`NTAGS`. -/
def strchrTags (e : Env) (c : Int) : Option Nat :=
  if c = 0 then some e.n else e.tags.findIdx? (fun t => t = c)

/-- The `switch` of `directkey()` on the byte following `ESC` (also
covering the fall-through sends of the `default` case).  Returns the
new state, the trace, and the unread input. -/
def dispatchEsc (e : Env) (st : MuxState) (c : Int) (r : List Int) :
    MuxState × List Ev × List Int :=
  if c = 99 then (st, tExec e st 0 false ++ statRet st, r)
  else if c = 59 then (st, tExec e st 0 true ++ statRet st, r)
  else if c = 109 then (st, tExec e st 1 false, r)
  else if c = 101 then (st, tExec e st 2 false, r)
  else if c = 106 || c = 107 then
    let s := tSet e st (aterm e (cterm e st))
    (s.1, s.2, r)
  else if c = 111 then
    let s := tSet e st (tterm e st st.ltag)
    (s.1, s.2 ++ statRet s.1, r)
  else if c = 112 then
    let s := togglebar st
    (s.1, s.2, r)
  else if c = 9 then
    if nterm e st ≠ cterm e st then
      let s := tSet e st (nterm e st)
      (s.1, s.2, r)
    else (st, [], r)
  else if c = 17 then ({st with exitit := true}, [], r)
  else if c = 115 then (st, [.termScreenshot false], r)
  else if c = 19 then (st, [.termScreenshot true], r)
  else if c = 121 then (st, [.termRedraw true] ++ statRet st, r)
  else if c = 5 then
    (st, [.termColors] ++ (if e.colorsOk then [.termRedraw true] else [])
      ++ statRet st, r)
  else if c = 12 then ({st with locked := true, pass := []}, [], r)
  else if c = 15 then ({st with taglock := !st.taglock}, [], r)
  else if c = 44 then (st, [.termScrl ((e.padRows / 2 : Nat) : Int)], r)
  else if c = 46 then (st, [.termScrl (-((e.padRows / 2 : Nat) : Int))], r)
  else if c = 61 then
    let s := tSplit e st (if st.split st.ctag = 1 then 2 else 1)
    (s.1, s.2, r)
  else if c = 45 then
    let s := tSplit e st 0
    (s.1, s.2 ++ statRet s.1, r)
  else
    match strchrTags e c with
    | some i =>
        let s := tSet e st (tterm e st i)
        (s.1, s.2 ++ statRet s.1, r)
    | none =>
        (st, (if tmain e st then [.termSend 27] else [])
          ++ (if c ≠ -1 && tmain e st then [.termSend c] else []), r)

/-- `directkey()`: read one byte.  While locked (and locking enabled)
only password entry runs: a carriage return authenticates, unlocking
exactly on a verified password and always clearing the buffer; a
printable byte is appended while the buffer has room.  Otherwise an
`ESC` byte dispatches a command on the next byte, and any other byte
is forwarded to the open current session. -/
def directkey (e : Env) (st : MuxState) (inp : List Int) :
    MuxState × List Ev × List Int :=
  let c := (readchar inp).1
  let r1 := (readchar inp).2
  if !e.nolock && st.locked then
    if c = 13 then
      ({st with
          locked := if 0 < chkpass e.auth then false else st.locked,
          pass := []}, [], r1)
    else if (32 ≤ c && c ≤ 126) && st.pass.length + 1 < 1024 then
      ({st with pass := st.pass ++ [c]}, [], r1)
    else (st, [], r1)
  else if c = 27 then
    dispatchEsc e st (readchar r1).1 (readchar r1).2
  else
    (st, (if c ≠ -1 && tmain e st then [.termSend c] else []), r1)

/-- One sequential step of the body of `t_set`, for stating in which
order it mutates the globals relative to the collaborator calls it
issues. -/
inductive TStep where
  | assignLtag (v : Nat)
  | assignCtag (v : Nat)
  | assignTop (tag v : Nat)
  | call (ev : Ev)
  deriving DecidableEq

/-- Whether a step assigns `ctag` or `tops`. -/
def TStep.isCtagTop : TStep → Bool
  | .assignCtag _ => true
  | .assignTop _ _ => true
  | _ => false

/-- Whether a step assigns any of the three globals. -/
def TStep.isAssign : TStep → Bool
  | .call _ => false
  | _ => true

/-- Whether a step is a collaborator call. -/
def TStep.isCall : TStep → Bool
  | .call _ => true
  | _ => false

/-- The sequential steps of `t_set(n)` in source order: nothing when
blocked; otherwise the `ltag` assignment (cross-tag only), then the
collaborator calls of the transition, then the assignments to `ctag`
and `tops[ctag]`. -/
def tSetSteps (e : Env) (st : MuxState) (n : Nat) : List TStep :=
  if cterm e st = n || st.cmdmode then []
  else if st.taglock && decide (st.ctag ≠ n % e.n) then []
  else
    (if st.ctag ≠ n % e.n then [.assignLtag st.ctag] else [])
      ++ (tSetTrace e st n).map TStep.call
      ++ [.assignCtag (n % e.n), .assignTop (n % e.n) (n / e.n)]

/-! ## Trace observations -/

/-- Whether an event is a full session repaint (`term_redraw(1)`). -/
def isFullRedraw : Ev → Bool
  | .termRedraw b => b
  | _ => false

/-- The `t_show` invocations of a trace, with their slot and requested
mode, in order. -/
def showCalls (tr : List Ev) : List (Nat × Nat) :=
  tr.filterMap fun ev =>
    match ev with
    | .tShowCall i m => some (i, m)
    | _ => none

/-- The `t_hide` invocations of a trace, with their slot and save
flag, in order. -/
def hideCalls (tr : List Ev) : List (Nat × Bool) :=
  tr.filterMap fun ev =>
    match ev with
    | .tHideCall i s => some (i, s)
    | _ => none

/-- The `term_load` calls of a trace, with their slot and visibility,
in order. -/
def loadCalls (tr : List Ev) : List (Nat × Bool) :=
  tr.filterMap fun ev =>
    match ev with
    | .termLoad i v => some (i, v)
    | _ => none

/-- The slot owning the render context after a trace: the slot of the
last `term_load` call, starting from owner `a`. -/
def loadedAfter (a : Nat) (tr : List Ev) : Nat :=
  tr.foldl (fun acc ev =>
    match ev with
    | .termLoad i _ => i
    | _ => acc) a

/-! ## Concrete instances

A small two-tag configuration used by the closed instances below:
tags a and b on a 600x800 display with 16x8 character cells; slot 3
(the lower slot of tag 1) is open and has a valid snapshot, tag 1 is
snapshot eligible and split horizontally; the current slot is 0. -/

/-- Concrete environment for closed instances. -/
def envA : Env where
  tags := [97, 98]
  fbRows := 600
  fbCols := 800
  crows := 16
  ccols := 8
  padRows := 37
  termOpen := fun i => decide (i = 3)
  tagSnap := fun t => decide (t = 1)
  scrLoadOk := fun i => decide (i = 3)
  colorsOk := false
  nolock := false
  auth := ⟨false, false, false, false, false, 0⟩

/-- Concrete unlocked multiplexer state for closed instances. -/
def stA : MuxState where
  tops := fun _ => 0
  split := fun t => if t = 1 then 1 else 0
  ctag := 0
  ltag := 0
  hidden := false
  locked := false
  taglock := false
  pass := []
  cmdmode := false
  exitit := false
  barstat := -1

/-- `stA` with the screen lock engaged. -/
def stL : MuxState := {stA with locked := true}

/-- `stA` with tag switching locked. -/
def stT : MuxState := {stA with taglock := true}

/-! ## Trace lemmas -/

theorem showCalls_append (x y : List Ev) :
    showCalls (x ++ y) = showCalls x ++ showCalls y :=
  List.filterMap_append x y _

theorem hideCalls_append (x y : List Ev) :
    hideCalls (x ++ y) = hideCalls x ++ hideCalls y :=
  List.filterMap_append x y _

theorem loadCalls_append (x y : List Ev) :
    loadCalls (x ++ y) = loadCalls x ++ loadCalls y :=
  List.filterMap_append x y _

theorem loadedAfter_append (a : Nat) (x y : List Ev) :
    loadedAfter a (x ++ y) = loadedAfter (loadedAfter a x) y :=
  List.foldl_append _ _ x y

theorem showCalls_tConf (e : Env) (split : Nat → Nat) (idx : Nat) :
    showCalls (tConf e split idx) = [] := by
  simp only [tConf]
  split <;> simp [showCalls]

theorem showCalls_tHide (e : Env) (idx : Nat) (save : Bool) :
    showCalls (tHide e idx save) = [] := by
  simp only [tHide]
  split_ifs <;> simp [showCalls]

theorem hideCalls_tConf (e : Env) (split : Nat → Nat) (idx : Nat) :
    hideCalls (tConf e split idx) = [] := by
  simp only [tConf]
  split <;> simp [hideCalls]

theorem hideCalls_tHide (e : Env) (idx : Nat) (save : Bool) :
    hideCalls (tHide e idx save) = [(idx, save)] := by
  simp only [tHide]
  split_ifs <;> simp [hideCalls]

theorem loadCalls_tConf (e : Env) (split : Nat → Nat) (idx : Nat) :
    loadCalls (tConf e split idx) = [] := by
  simp only [tConf]
  split <;> simp [loadCalls]

theorem loadCalls_tHide (e : Env) (idx : Nat) (save : Bool) :
    loadCalls (tHide e idx save) = [] := by
  simp only [tHide]
  split_ifs <;> simp [loadCalls]

theorem showCalls_tShow (e : Env) (split : Nat → Nat) (idx mode : Nat) :
    showCalls (tShow e split idx mode).2 = [(idx, mode)] := by
  simp only [tShow]
  simp only [showCalls_append, showCalls_tConf]
  split_ifs <;> simp [showCalls]

theorem hideCalls_tShow (e : Env) (split : Nat → Nat) (idx mode : Nat) :
    hideCalls (tShow e split idx mode).2 = [] := by
  simp only [tShow]
  simp only [hideCalls_append, hideCalls_tConf]
  split_ifs <;> simp [hideCalls]

theorem loadCalls_tShow (e : Env) (split : Nat → Nat) (idx mode : Nat) :
    loadCalls (tShow e split idx mode).2 = [(idx, decide (0 < mode))] := by
  simp only [tShow]
  simp only [loadCalls_append, loadCalls_tConf]
  split_ifs <;> simp [loadCalls]

theorem showCalls_tHideshow (e : Env) (split : Nat → Nat) (oidx : Nat)
    (save : Bool) (nidx mode : Nat) :
    showCalls (tHideshow e split oidx save nidx mode).2 = [(nidx, mode)] := by
  simp only [tHideshow]
  simp only [showCalls_append, showCalls_tHide, showCalls_tShow]
  split_ifs <;> simp [showCalls]

theorem hideCalls_tHideshow (e : Env) (split : Nat → Nat) (oidx : Nat)
    (save : Bool) (nidx mode : Nat) :
    hideCalls (tHideshow e split oidx save nidx mode).2 = [(oidx, save)] := by
  simp only [tHideshow]
  simp only [hideCalls_append, hideCalls_tHide, hideCalls_tShow]
  split_ifs <;> simp [hideCalls]

theorem loadCalls_tHideshow (e : Env) (split : Nat → Nat) (oidx : Nat)
    (save : Bool) (nidx mode : Nat) :
    loadCalls (tHideshow e split oidx save nidx mode).2
      = [(nidx, decide (0 < mode))] := by
  simp only [tHideshow]
  simp only [loadCalls_append, loadCalls_tHide, loadCalls_tShow]
  split_ifs <;> simp [loadCalls]

theorem loadedAfter_tConf (e : Env) (split : Nat → Nat) (idx : Nat) (a : Nat) :
    loadedAfter a (tConf e split idx) = a := by
  simp only [tConf]
  split <;> simp [loadedAfter]

theorem loadedAfter_tHide (e : Env) (idx : Nat) (save : Bool) (a : Nat) :
    loadedAfter a (tHide e idx save) = a := by
  simp only [tHide]
  split_ifs <;> simp [loadedAfter]

theorem loadedAfter_tShow (e : Env) (split : Nat → Nat) (idx mode : Nat)
    (a : Nat) :
    loadedAfter a (tShow e split idx mode).2 = idx := by
  simp only [tShow]
  simp only [loadedAfter_append, loadedAfter_tConf]
  split_ifs <;> simp [loadedAfter]

theorem loadedAfter_tHideshow (e : Env) (split : Nat → Nat) (oidx : Nat)
    (save : Bool) (nidx mode : Nat) (a : Nat) :
    loadedAfter a (tHideshow e split oidx save nidx mode).2 = nidx := by
  simp only [tHideshow]
  simp only [loadedAfter_append, loadedAfter_tHide]
  have h2 : ∀ (b : Nat) (c : Bool) (x y : Nat),
      loadedAfter b (if c = true then [Ev.padBorder x y] else []) = b := by
    intro b c x y
    cases c <;> simp [loadedAfter]
  rw [h2, loadedAfter_tShow]

theorem countP_isFullRedraw_tConf (e : Env) (split : Nat → Nat) (idx : Nat) :
    (tConf e split idx).countP isFullRedraw = 0 := by
  simp only [tConf]
  split <;> simp [isFullRedraw]

/-! ## Claim theorems -/

/-- Claim C1: for every slot `s`, `t_show(s, 2)` (LoadMaybeRestore)
returns 2 and issues no full redraw when the session of `s` is open,
its tag is snapshot eligible and `scr_load` succeeds; otherwise it
behaves as ForceRedraw, issuing exactly one full redraw and returning
3.  The returned value is the effective mode applied. -/
theorem show_load_maybe_restore (e : Env) (split : Nat → Nat) (s : Nat) :
    (tShow e split s 2).1
      = (if e.termOpen s && e.tagSnap (s % e.n) && e.scrLoadOk s then 2 else 3)
    ∧ (tShow e split s 2).2.countP isFullRedraw
      = (if e.termOpen s && e.tagSnap (s % e.n) && e.scrLoadOk s then 0 else 1) := by
  cases h1 : e.termOpen s <;> cases h2 : e.tagSnap (s % e.n) <;>
    cases h3 : e.scrLoadOk s <;>
      simp [tShow, List.countP_append, countP_isFullRedraw_tConf,
        isFullRedraw, h1, h2, h3]

/-- Claim C6: `t_set(n)` is a no-op, issuing no collaborator call and
leaving the whole state unchanged, whenever `n` is already the current
slot, or single-command mode is active, or `taglock` is set and the
tag of `n` differs from the current tag. -/
theorem set_active_noop (e : Env) (st : MuxState) (n : Nat)
    (h : cterm e st = n ∨ st.cmdmode = true
      ∨ (st.taglock = true ∧ st.ctag ≠ n % e.n)) :
    tSet e st n = (st, []) := by
  unfold tSet
  rcases h with h | h | ⟨h1, h2⟩
  · simp [h]
  · simp [h]
  · by_cases hd : cterm e st = n
    · simp [hd]
    · by_cases hm : st.cmdmode
      · simp [hm]
      · simp [hd, hm, h1, h2]

/-- Closed instance of `set_active_noop`: with `taglock` set, a switch
to slot 1 (tag 1, different from current tag 0) does nothing. -/
theorem set_active_noop_witness :
    (stT.taglock = true ∧ stT.ctag ≠ 1 % envA.n)
      ∧ tSet envA stT 1 = (stT, []) :=
  ⟨⟨rfl, by decide⟩, set_active_noop envA stT 1 (Or.inr (Or.inr ⟨rfl, by decide⟩))⟩

/-- Claim C5: the lock is lifted exactly when the password check
reports verified (all external steps succeed and the userauth result
is zero); any failing primitive step yields the distinct result `-1`
and a rejected password yields the negative userauth result, so both
leave `locked` unchanged; the password buffer is cleared in every
case. -/
theorem chkpass_outcomes (e : Env) (st : MuxState) (r : List Int)
    (hn : e.nolock = false) (hl : st.locked = true) :
    (0 < chkpass e.auth ↔
      (e.auth.initFail = false ∧ e.auth.sockFail = false
        ∧ e.auth.connFail = false ∧ e.auth.sessFail = false
        ∧ e.auth.shakeFail = false ∧ e.auth.userauthRet = 0))
    ∧ ((directkey e st (13 :: r)).1.locked = false ↔ 0 < chkpass e.auth)
    ∧ (directkey e st (13 :: r)).1.pass = []
    ∧ ((e.auth.initFail = true ∨ e.auth.sockFail = true
        ∨ e.auth.connFail = true ∨ e.auth.sessFail = true
        ∨ e.auth.shakeFail = true) → chkpass e.auth = -1)
    ∧ ((e.auth.initFail = false ∧ e.auth.sockFail = false
        ∧ e.auth.connFail = false ∧ e.auth.sessFail = false
        ∧ e.auth.shakeFail = false ∧ e.auth.userauthRet < 0)
        → chkpass e.auth = e.auth.userauthRet) := by
  have hdk : directkey e st (13 :: r)
      = ({st with
            locked := if 0 < chkpass e.auth then false else st.locked,
            pass := []}, [], r) := by
    unfold directkey readchar
    simp [hn, hl]
  refine ⟨?_, ?_, ?_, ?_, ?_⟩
  · unfold chkpass
    cases h1 : e.auth.initFail <;> cases h2 : e.auth.sockFail <;>
      cases h3 : e.auth.connFail <;> cases h4 : e.auth.sessFail <;>
        cases h5 : e.auth.shakeFail <;> simp <;> split_ifs <;> omega
  · rw [hdk]
    by_cases hk : 0 < chkpass e.auth
    · simp [hk]
    · simp [hk, hl]
  · rw [hdk]
  · intro h
    unfold chkpass
    rcases h with h | h | h | h | h <;> simp [h]
  · intro h
    obtain ⟨h1, h2, h3, h4, h5, h6⟩ := h
    unfold chkpass
    simp [h1, h2, h3, h4, h5]
    omega

/-- Closed instance of `chkpass_outcomes`: with every external step
succeeding and a verified password, a carriage return while locked
lifts the lock and clears the buffer. -/
theorem chkpass_outcomes_witness :
    (directkey envA stL [13]).1.locked = false
      ∧ (directkey envA stL [13]).1.pass = [] :=
  ⟨((chkpass_outcomes envA stL [] rfl rfl).2.1).mpr (by decide),
    (chkpass_outcomes envA stL [] rfl rfl).2.2.1⟩

/-- Claim C4 counterexample: the escape byte 27, read while locked
with an empty (far from full) buffer, is not a carriage return and yet
is not appended to the password buffer, because the code only appends
printable characters. -/
theorem directkey_locked_cex :
    envA.nolock = false ∧ stL.locked = true ∧ ((27 : Int) ≠ 13)
    ∧ stL.pass.length + 1 < 1024
    ∧ (directkey envA stL [27]).1.pass = []
    ∧ (directkey envA stL [27]).1.pass ≠ stL.pass ++ [27] := by decide

/-- Claim C4 (amended): while locked (and locking enabled) the
dispatcher issues no collaborator call at all (no command, no pane
switch, no spawn, no forwarded byte) and leaves the pane state
untouched; every printable byte other than carriage return is appended
to the password buffer while it is below its bound, and is silently
discarded otherwise; carriage return always resets the buffer to empty
whatever the authentication outcome; the buffer never reaches its
bound of 1024. -/
theorem directkey_locked (e : Env) (st : MuxState) (c : Int) (r : List Int)
    (hn : e.nolock = false) (hl : st.locked = true) :
    (directkey e st (c :: r)).2.1 = []
    ∧ (directkey e st (c :: r)).2.2 = r
    ∧ (directkey e st (c :: r)).1.ctag = st.ctag
    ∧ (directkey e st (c :: r)).1.tops = st.tops
    ∧ (directkey e st (c :: r)).1.ltag = st.ltag
    ∧ (directkey e st (c :: r)).1.split = st.split
    ∧ (directkey e st (c :: r)).1.exitit = st.exitit
    ∧ (c = 13 → (directkey e st (c :: r)).1.pass = [])
    ∧ (c ≠ 13 →
        (directkey e st (c :: r)).1.locked = true
        ∧ (32 ≤ c → c ≤ 126 → st.pass.length + 1 < 1024 →
            (directkey e st (c :: r)).1.pass = st.pass ++ [c])
        ∧ (¬(32 ≤ c ∧ c ≤ 126 ∧ st.pass.length + 1 < 1024) →
            (directkey e st (c :: r)).1.pass = st.pass))
    ∧ (st.pass.length < 1024 → (directkey e st (c :: r)).1.pass.length < 1024) := by
  unfold directkey readchar
  simp only [hn, hl]
  by_cases h13 : c = 13
  · simp [h13]
  · by_cases hpr : 32 ≤ c ∧ c ≤ 126
    · by_cases hbd : st.pass.length + 1 < 1024
      · simp [h13, hpr.1, hpr.2, hbd, hl]
      · simp [h13, hbd, hl]
    · have hno : ¬(32 ≤ c ∧ c ≤ 126 ∧ st.pass.length + 1 < 1024) := by tauto
      rcases Decidable.not_and_iff_or_not.mp hpr with h | h
      · simp [h13, h, hl, hno]
      · simp [h13, h, hl, hno]

/-- Closed instance of `directkey_locked`: the printable byte `a` is
appended to the empty buffer while locked, with no call issued. -/
theorem directkey_locked_witness :
    (directkey envA stL [97]).2.1 = []
      ∧ (directkey envA stL [97]).1.pass = stL.pass ++ [97] :=
  ⟨(directkey_locked envA stL 97 [] rfl rfl).1,
    ((directkey_locked envA stL 97 [] rfl rfl).2.2.2.2.2.2.2.2.1
      (by decide)).2.1 (by decide) (by decide) (by decide)⟩

/-- Claim C3 counterexample: on a 600x800 display with 16x8 cells,
after `t_split(1)` the two pane rectangles of the split tag do NOT
together cover the full display rectangle: the corner point (0,0) lies
in the full rectangle but in neither pane, because `t_conf` reserves
the border margins. -/
theorem set_split_layout_cex :
    (tSplit envA stA 1).1.split (tSplit envA stA 1).1.ctag = 1
    ∧ Rect.mem ⟨0, 0, 600, 800⟩ (0, 0)
    ∧ ¬ Rect.mem (confRect envA 1 true) (0, 0)
    ∧ ¬ Rect.mem (confRect envA 1 false) (0, 0) := by decide

/-- Claim C3 (amended): after `set_split(m)` the split mode of the
current tag is `m`; for the split modes 1 (horizontal) and 2
(vertical) the two pane rectangles computed by `t_conf` are
non-overlapping and together cover exactly the display rectangle minus
the reserved borders: the outer margin of width `BRWID = 2` and the
strip of width `2*BRWID` between the panes; mode 0 yields the full
display rectangle `(0, 0, fb_rows, fb_cols)` for both positions. -/
theorem set_split_layout (e : Env) (st : MuxState) (m : Nat)
    (hr : 8 ≤ e.fbRows) (hc : 8 ≤ e.fbCols) :
    ((tSplit e st m).1.split (tSplit e st m).1.ctag = m)
    ∧ (∀ p : Int × Int,
        ¬(Rect.mem (confRect e 1 true) p ∧ Rect.mem (confRect e 1 false) p))
    ∧ (∀ p : Int × Int,
        (Rect.mem (confRect e 1 true) p ∨ Rect.mem (confRect e 1 false) p) ↔
          (2 ≤ p.1 ∧ p.1 < (e.fbRows : Int) - 2
            ∧ 2 ≤ p.2 ∧ p.2 < (e.fbCols : Int) - 2
            ∧ ¬(2 + ((e.fbRows / 2 / e.crows * e.crows : Nat) : Int) ≤ p.1
                ∧ p.1 < ((e.fbRows / 2 / e.crows * e.crows : Nat) : Int) + 6)))
    ∧ (∀ p : Int × Int,
        ¬(Rect.mem (confRect e 2 true) p ∧ Rect.mem (confRect e 2 false) p))
    ∧ (∀ p : Int × Int,
        (Rect.mem (confRect e 2 true) p ∨ Rect.mem (confRect e 2 false) p) ↔
          (2 ≤ p.1 ∧ p.1 < (e.fbRows : Int) - 2
            ∧ 2 ≤ p.2 ∧ p.2 < (e.fbCols : Int) - 2
            ∧ ¬(2 + ((e.fbCols / 2 / e.ccols * e.ccols : Nat) : Int) ≤ p.2
                ∧ p.2 < ((e.fbCols / 2 / e.ccols * e.ccols : Nat) : Int) + 6)))
    ∧ confRect e 0 true = ⟨0, 0, (e.fbRows : Int), (e.fbCols : Int)⟩
    ∧ confRect e 0 false = ⟨0, 0, (e.fbRows : Int), (e.fbCols : Int)⟩ := by
  have hrowk := Nat.div_mul_le_self (e.fbRows / 2) e.crows
  have hcolk := Nat.div_mul_le_self (e.fbCols / 2) e.ccols
  refine ⟨by simp [tSplit], ?_, ?_, ?_, ?_, by simp [confRect], by simp [confRect]⟩
  · intro p
    simp only [confRect, Rect.mem]
    set k := e.fbRows / 2 / e.crows * e.crows with hkdef
    norm_num
    omega
  · intro p
    simp only [confRect, Rect.mem]
    set k := e.fbRows / 2 / e.crows * e.crows with hkdef
    norm_num
    omega
  · intro p
    simp only [confRect, Rect.mem]
    set k := e.fbCols / 2 / e.ccols * e.ccols with hkdef
    norm_num
    omega
  · intro p
    simp only [confRect, Rect.mem]
    set k := e.fbCols / 2 / e.ccols * e.ccols with hkdef
    norm_num
    omega

/-- Closed instance of `set_split_layout`: on the 600x800 display the
point (3, 3) is covered (by the top pane) and the border point (0, 0)
is not, matching the coverage formula. -/
theorem set_split_layout_witness :
    (tSplit envA stA 1).1.split (tSplit envA stA 1).1.ctag = 1
      ∧ (Rect.mem (confRect envA 1 true) (3, 3)
          ∨ Rect.mem (confRect envA 1 false) (3, 3)) :=
  ⟨(set_split_layout envA stA 1 (by decide) (by decide)).1,
    ((set_split_layout envA stA 1 (by decide) (by decide)).2.2.1 (3, 3)).mpr
      (by decide)⟩

/-- Claim C8: `peepterm(s)` leaves the whole multiplexer state
unchanged and loads `s` with a visible mode exactly when the display
is not hidden, the tag of `s` is current and that tag is split
(otherwise it loads `s` invisibly); both `peepterm` and `peepback` are
no-ops when `s` is the current slot; and after `peepterm(s)` followed
by `peepback(s)` the render context is owned again by the slot that
was current before, with `ctag` and `tops` untouched. -/
theorem peep_policy (e : Env) (st : MuxState) (s : Nat) :
    (peepterm e st s).1 = st
    ∧ (peepback e st s).1 = st
    ∧ (s = cterm e st → (peepterm e st s).2 = [] ∧ (peepback e st s).2 = [])
    ∧ (s ≠ cterm e st →
        loadCalls (peepterm e st s).2
          = [(s, !st.hidden && decide (st.ctag = s % e.n)
                && decide (st.split st.ctag ≠ 0))])
    ∧ loadedAfter (cterm e st) ((peepterm e st s).2 ++ (peepback e st s).2)
        = cterm e st := by
  by_cases hs : s = cterm e st
  · refine ⟨?_, ?_, ?_, ?_, ?_⟩ <;>
      simp [peepterm, peepback, hs, loadedAfter]
  · refine ⟨?_, ?_, ?_, ?_, ?_⟩
    · simp [peepterm, hs]
    · simp [peepback, hs]
    · simp [hs]
    · intro hne
      rw [show (peepterm e st s).2
          = (tHideshow e st.split (cterm e st) false s
              (if !st.hidden && decide (st.ctag = s % e.n)
                  && decide (st.split st.ctag ≠ 0) then 1 else 0)).2 from by
        simp [peepterm, hs]]
      rw [loadCalls_tHideshow]
      cases hv : !st.hidden && decide (st.ctag = s % e.n)
          && decide (st.split st.ctag ≠ 0) <;> simp [hv]
    · simp [peepterm, peepback, hs, loadedAfter_append, loadedAfter_tHideshow]

/-- Closed instance of `peep_policy`: peeping the closed partner slot
3 loads it invisibly (tag 1 is not current) and the round trip hands
the render context back to slot 0. -/
theorem peep_policy_witness :
    loadCalls (peepterm envA stA 3).2
      = [(3, !stA.hidden && decide (stA.ctag = 3 % envA.n)
            && decide (stA.split stA.ctag ≠ 0))]
    ∧ loadedAfter (cterm envA stA)
        ((peepterm envA stA 3).2 ++ (peepback envA stA 3).2)
        = cterm envA stA :=
  ⟨(peep_policy envA stA 3).2.2.2.1 (by decide),
    (peep_policy envA stA 3).2.2.2.2⟩

theorem tHideshow_fst (e : Env) (split : Nat → Nat) (oidx : Nat)
    (save : Bool) (nidx mode : Nat) :
    (tHideshow e split oidx save nidx mode).1 = (tShow e split nidx mode).1 := by
  simp [tHideshow]

/-- Claim C2 counterexample: cross-tag switch to slot 1 (tag 1, split,
single-command mode off, `taglock` off).  The first pane (slot 1,
closed) requires a full redraw (effective mode 3), yet the second pane
(slot 3) is brought in with LoadMaybeRestore (mode 2), not forced to
redraw: only one full redraw happens in the whole transition, and it
belongs to the first pane, while slot 3 is restored from its
snapshot. -/
theorem set_active_cross_cex :
    cterm envA stA ≠ 1 ∧ stA.cmdmode = false ∧ stA.taglock = false
    ∧ stA.ctag ≠ 1 % envA.n
    ∧ stA.split (1 % envA.n) ≠ 0
    ∧ (tShow envA stA.split 1 2).1 = 3
    ∧ showCalls (tSet envA stA 1).2 = [(1, 2), (3, 2), (1, 1)]
    ∧ (tSet envA stA 1).2.countP isFullRedraw = 1 := by decide

/-- Claim C2 (amended): in a cross-tag `t_set(n)` that is not blocked,
the old current slot is hidden with save; if the destination tag is
split, its two panes are brought in in sequence: the target with
LoadMaybeRestore, then the partner with LoadMaybeRestore when the
target required a full redraw and with a plain visible fast-load
otherwise, and finally the target again visible; if the destination
tag is not split, only the target pane is brought in.  `ctag`, `ltag`
and `tops` are updated accordingly. -/
theorem set_active_cross (e : Env) (st : MuxState) (n : Nat)
    (hne : cterm e st ≠ n) (hcmd : st.cmdmode = false)
    (htl : st.taglock = false) (hcross : st.ctag ≠ n % e.n) :
    hideCalls (tSet e st n).2
      = (if st.split (n % e.n) ≠ 0 then
          [(cterm e st, true), (n, false), (aterm e n, false)]
        else [(cterm e st, true)])
    ∧ showCalls (tSet e st n).2
      = (if st.split (n % e.n) ≠ 0 then
          [(n, 2), (aterm e n, if (tShow e st.split n 2).1 = 2 then 1 else 2),
            (n, 1)]
        else [(n, 2)])
    ∧ (tSet e st n).1.ctag = n % e.n
    ∧ (tSet e st n).1.ltag = st.ctag
    ∧ (tSet e st n).1.tops (n % e.n) = n / e.n := by
  have hset : tSet e st n
      = ({st with
            ltag := st.ctag,
            ctag := n % e.n,
            tops := fun t => if t = n % e.n then n / e.n else st.tops t},
          tSetTrace e st n) := by
    unfold tSet
    simp [hne, hcmd, htl, hcross]
  have htrace : tSetTrace e st n
      = (tHideshow e st.split (cterm e st) true n 2).2
        ++ (if st.split (n % e.n) ≠ 0 then
              (tHideshow e st.split n false (aterm e n)
                (if (tShow e st.split n 2).1 = 2 then 1 else 2)).2
              ++ (tHideshow e st.split (aterm e n) false n 1).2
            else []) := by
    unfold tSetTrace
    simp [hcross, tHideshow_fst]
  refine ⟨?_, ?_, by simp [hset], by simp [hset], by simp [hset]⟩
  · rw [show (tSet e st n).2 = tSetTrace e st n from by rw [hset], htrace]
    by_cases hsp : st.split (n % e.n) ≠ 0 <;>
      simp [hsp, hideCalls_append, hideCalls_tHideshow]
  · rw [show (tSet e st n).2 = tSetTrace e st n from by rw [hset], htrace]
    by_cases hsp : st.split (n % e.n) ≠ 0 <;>
      simp [hsp, showCalls_append, showCalls_tHideshow]

/-- Closed instance of `set_active_cross` at the concrete cross-tag
switch of the counterexample configuration. -/
theorem set_active_cross_witness :
    showCalls (tSet envA stA 1).2
      = [(1, 2), (3, if (tShow envA stA.split 1 2).1 = 2 then 1 else 2),
          (1, 1)]
    ∧ (tSet envA stA 1).1.ctag = 1 % envA.n :=
  ⟨((set_active_cross envA stA 1 (by decide) rfl rfl (by decide)).2.1).trans
      (by decide),
    (set_active_cross envA stA 1 (by decide) rfl rfl (by decide)).2.2.1⟩

theorem steps_shape_order (A C : List TStep)
    (hA : ∀ x ∈ A, x.isCtagTop = false) (hC : ∀ y ∈ C, y.isCall = false)
    (i j : Nat) (hi : i < (A ++ C).length) (hj : j < (A ++ C).length)
    (hct : ((A ++ C).get ⟨i, hi⟩).isCtagTop = true)
    (hcall : ((A ++ C).get ⟨j, hj⟩).isCall = true) : j < i := by
  have hlen : (A ++ C).length = A.length + C.length := List.length_append A C
  have hiA : ¬ i < A.length := by
    intro h
    rw [List.get_append i h] at hct
    rw [hA _ (List.get_mem A i h)] at hct
    cases hct
  have hjA : j < A.length := by
    by_contra h
    have h2 : A.length ≤ j := by omega
    rw [List.get_eq_getElem, List.getElem_append_right h2] at hcall
    rw [hC _ (List.getElem_mem _)] at hcall
    cases hcall
  omega

/-- Claim C9 counterexample: in the concrete cross-tag switch to slot
1, the very first sequential step of `t_set` is the assignment to
`ltag` and the second is already a collaborator call, so not all state
variables are updated only after the transition completes. -/
theorem set_active_update_order_cex :
    cterm envA stA ≠ 1 ∧ stA.cmdmode = false ∧ stA.taglock = false
    ∧ ((tSetSteps envA stA 1).get ⟨0, by decide⟩) = .assignLtag 0
    ∧ ((tSetSteps envA stA 1).get ⟨0, by decide⟩).isAssign = true
    ∧ ((tSetSteps envA stA 1).get ⟨1, by decide⟩).isCall = true := by decide

/-- Claim C9 (amended): in every `t_set(n)` transition the
assignments to `ctag` and `tops` come after every hide, show and
border operation; `ltag` is instead assigned before the first
operation of a cross-tag transition, but no issued operation depends
on `ltag` (the steps and the trace are invariant under changing it),
so every operation observes the pre-call values of all three
variables. -/
theorem set_active_update_order (e : Env) (st : MuxState) (n : Nat) :
    (∀ (i j : Nat) (hi : i < (tSetSteps e st n).length)
        (hj : j < (tSetSteps e st n).length),
        ((tSetSteps e st n).get ⟨i, hi⟩).isCtagTop = true →
        ((tSetSteps e st n).get ⟨j, hj⟩).isCall = true → j < i)
    ∧ (∀ v, tSetSteps e {st with ltag := v} n = tSetSteps e st n)
    ∧ (∀ v, tSetTrace e {st with ltag := v} n = tSetTrace e st n)
    ∧ (cterm e st ≠ n → st.cmdmode = false → st.taglock = false →
        st.ctag ≠ n % e.n →
        (tSetSteps e st n).head? = some (.assignLtag st.ctag)) := by
  refine ⟨?_, fun v => rfl, fun v => rfl, ?_⟩
  · intro i j hi hj hct hcall
    by_cases h1 : (decide (cterm e st = n) || st.cmdmode) = true
    · exfalso
      unfold tSetSteps at hi
      rw [if_pos h1] at hi
      simp at hi
    · by_cases h2 : (st.taglock && decide (st.ctag ≠ n % e.n)) = true
      · exfalso
        unfold tSetSteps at hi
        rw [if_neg h1, if_pos h2] at hi
        simp at hi
      · have hsteps : tSetSteps e st n
            = ((if st.ctag ≠ n % e.n then [TStep.assignLtag st.ctag] else [])
                ++ (tSetTrace e st n).map TStep.call)
              ++ [TStep.assignCtag (n % e.n), TStep.assignTop (n % e.n) (n / e.n)] := by
          unfold tSetSteps
          rw [if_neg h1, if_neg h2, List.append_assoc]
        revert hi hj hct hcall
        rw [hsteps]
        intro hi hj hct hcall
        refine steps_shape_order _ _ ?_ ?_ i j hi hj hct hcall
        · intro x hx
          rcases List.mem_append.mp hx with hx | hx
          · rcases em (st.ctag ≠ n % e.n) with h | h
            · rw [if_pos h] at hx
              rcases List.mem_cons.mp hx with rfl | hx
              · rfl
              · exact absurd hx (List.not_mem_nil x)
            · rw [if_neg h] at hx
              exact absurd hx (List.not_mem_nil x)
          · obtain ⟨ev, _, rfl⟩ := List.mem_map.mp hx
            rfl
        · intro y hy
          rcases List.mem_cons.mp hy with rfl | hy
          · rfl
          rcases List.mem_cons.mp hy with rfl | hy
          · rfl
          exact absurd hy (List.not_mem_nil y)
  · intro hne hcmd htl hcross
    unfold tSetSteps
    simp [hne, hcmd, htl, hcross]

/-- Closed instance of `set_active_update_order`: in the concrete
cross-tag switch the first step is the `ltag` assignment, and the
`ctag` assignment (step 26) comes after the call at step 1. -/
theorem set_active_update_order_witness :
    (tSetSteps envA stA 1).head? = some (.assignLtag stA.ctag)
      ∧ (1 : Nat) < 26 :=
  ⟨(set_active_update_order envA stA 1).2.2.2 (by decide) rfl rfl (by decide),
    (set_active_update_order envA stA 1).1 26 1 (by decide) (by decide)
      (by decide) (by decide)⟩

theorem sorted_getD_lt (g : List Int) (hs : List.Sorted (· < ·) g)
    (a b : Nat) (hab : a < b) (hb : b < g.length) :
    g.getD a 0 < g.getD b 0 := by
  have ha : a < g.length := lt_trans hab hb
  rw [List.getD_eq_getElem g 0 ha, List.getD_eq_getElem g 0 hb]
  exact List.pairwise_iff_getElem.mp hs a b ha hb hab

theorem findGlyphAux_not_found (g : List Int) (c : Int) :
    ∀ (fuel l h : Nat), h - l ≤ fuel → h ≤ g.length →
      (∀ j, l ≤ j → j < h → g.getD j 0 ≠ c) →
      findGlyphAux g c l h = -1 := by
  intro fuel
  induction fuel with
  | zero =>
    intro l h hf hh hnone
    have hnlt : ¬ l < h := by omega
    unfold findGlyphAux
    rw [dif_neg hnlt]
  | succ f ih =>
    intro l h hf hh hnone
    unfold findGlyphAux
    by_cases hlt : l < h
    · rw [dif_pos hlt]
      have hne : g.getD ((l + h) / 2) 0 ≠ c := hnone _ (by omega) (by omega)
      rw [if_neg hne]
      by_cases hc : c < g.getD ((l + h) / 2) 0
      · rw [if_pos hc]
        exact ih l ((l + h) / 2) (by omega) (by omega)
          (fun j hj1 hj2 => hnone j hj1 (by omega))
      · rw [if_neg hc]
        exact ih ((l + h) / 2 + 1) h (by omega) hh
          (fun j hj1 hj2 => hnone j (by omega) hj2)
    · rw [dif_neg hlt]

theorem findGlyphAux_found (g : List Int) (c : Int)
    (hs : List.Sorted (· < ·) g) (i : Nat) (hi : i < g.length)
    (hgi : g.getD i 0 = c) :
    ∀ (fuel l h : Nat), h - l ≤ fuel → l ≤ i → i < h → h ≤ g.length →
      findGlyphAux g c l h = (i : Int) := by
  intro fuel
  induction fuel with
  | zero =>
    intro l h hf hl hih hh
    exact absurd hf (by omega)
  | succ f ih =>
    intro l h hf hl hih hh
    have hlt : l < h := by omega
    have hm : (l + h) / 2 < g.length := by omega
    unfold findGlyphAux
    rw [dif_pos hlt]
    by_cases heq : g.getD ((l + h) / 2) 0 = c
    · have hmi : (l + h) / 2 = i := by
        rcases lt_trichotomy ((l + h) / 2) i with h1 | h1 | h1
        · exfalso
          have hlt2 := sorted_getD_lt g hs _ _ h1 hi
          rw [heq, hgi] at hlt2
          exact lt_irrefl _ hlt2
        · exact h1
        · exfalso
          have hlt2 := sorted_getD_lt g hs _ _ h1 hm
          rw [heq, hgi] at hlt2
          exact lt_irrefl _ hlt2
      rw [if_pos heq, hmi]
    · rw [if_neg heq]
      by_cases hc : c < g.getD ((l + h) / 2) 0
      · have him : i < (l + h) / 2 := by
          rcases lt_trichotomy i ((l + h) / 2) with h1 | h1 | h1
          · exact h1
          · exact absurd (by rw [← h1]; exact hgi) heq
          · exfalso
            have hlt2 := sorted_getD_lt g hs _ _ h1 hi
            rw [hgi] at hlt2
            exact lt_irrefl _ (lt_trans hlt2 hc)
        rw [if_pos hc]
        exact ih l ((l + h) / 2) (by omega) hl him (by omega)
      · have him : (l + h) / 2 < i := by
          rcases lt_trichotomy ((l + h) / 2) i with h1 | h1 | h1
          · exact h1
          · exact absurd (by rw [h1]; exact hgi) heq
          · exfalso
            have hlt2 := sorted_getD_lt g hs _ _ h1 hm
            rw [hgi] at hlt2
            exact hc hlt2
        rw [if_neg hc]
        exact ih ((l + h) / 2 + 1) h (by omega) (by omega) hih hh

/-- Claim C7: for a glyph store built from strictly ascending codes,
`font_bitmap` copies exactly the stored `rows*cols` bitmap of `c` into
the head of the destination and reports success (0) when `c` is among
the stored codes; when `c` is absent (in particular below the minimum,
above the maximum, or when the store is empty) it returns the
not-found signal (1) with the destination untouched. -/
theorem font_bitmap_lookup (g : List Int) (data dst : List Nat)
    (rows cols : Nat) (c : Int) (hs : List.Sorted (· < ·) g) :
    (c ∉ g →
      font_bitmap ⟨(g.length : Int), (rows : Int), (cols : Int), g, data⟩ dst c
        = (1, dst))
    ∧ (c ∈ g → ∃ i : Nat, i < g.length ∧ g.getD i 0 = c ∧
        font_bitmap ⟨(g.length : Int), (rows : Int), (cols : Int), g, data⟩ dst c
          = (0, (data.drop (i * (rows * cols))).take (rows * cols)
              ++ dst.drop (rows * cols))) := by
  constructor
  · intro hnm
    have hfg : find_glyph
        ⟨(g.length : Int), (rows : Int), (cols : Int), g, data⟩ c = -1 := by
      unfold find_glyph
      simp only [Int.toNat_natCast]
      refine findGlyphAux_not_found g c g.length 0 g.length (by omega) le_rfl ?_
      intro j hj1 hj2 heq
      apply hnm
      rw [← heq, List.getD_eq_getElem g 0 hj2]
      exact List.getElem_mem hj2
    unfold font_bitmap
    rw [hfg]
    norm_num
  · intro hmem
    obtain ⟨⟨i, hi⟩, hgi⟩ := List.mem_iff_get.mp hmem
    have hgd : g.getD i 0 = c := by
      rw [List.getD_eq_getElem g 0 hi]
      exact hgi
    refine ⟨i, hi, hgd, ?_⟩
    have hfg : find_glyph
        ⟨(g.length : Int), (rows : Int), (cols : Int), g, data⟩ c = (i : Int) := by
      unfold find_glyph
      simp only [Int.toNat_natCast]
      exact findGlyphAux_found g c hs i hi hgd g.length 0 g.length
        (by omega) (by omega) hi le_rfl
    unfold font_bitmap
    rw [hfg]
    have hnn : ¬ (i : Int) < 0 := by
      simp [Int.natCast_nonneg]
    rw [if_neg hnn]
    rw [← Int.natCast_mul, Int.toNat_natCast, Int.toNat_natCast]

/-- Closed instance of `font_bitmap_lookup`: in a store of two glyphs
with 2x3 bitmaps, code 97 is found (bitmap cells 7..12 copied over the
destination) and code 66 is not (destination untouched). -/
theorem font_bitmap_lookup_witness :
    List.Sorted (· < ·) [(65 : Int), 97]
    ∧ font_bitmap ⟨2, 2, 3, [65, 97], [1, 2, 3, 4, 5, 6, 7, 8, 9, 10, 11, 12]⟩
        [0, 0, 0, 0, 0, 0] 66 = (1, [0, 0, 0, 0, 0, 0])
    ∧ (∃ i : Nat, i < 2 ∧ [(65 : Int), 97].getD i 0 = 97 ∧
        font_bitmap ⟨2, 2, 3, [65, 97], [1, 2, 3, 4, 5, 6, 7, 8, 9, 10, 11, 12]⟩
          [0, 0, 0, 0, 0, 0] 97
          = (0, ([1, 2, 3, 4, 5, 6, 7, 8, 9, 10, 11, 12].drop (i * (2 * 3))).take (2 * 3)
              ++ [0, 0, 0, 0, 0, 0].drop (2 * 3))) :=
  ⟨by decide,
    (font_bitmap_lookup [65, 97] [1, 2, 3, 4, 5, 6, 7, 8, 9, 10, 11, 12]
      [0, 0, 0, 0, 0, 0] 2 3 66 (by decide)).1 (by decide),
    (font_bitmap_lookup [65, 97] [1, 2, 3, 4, 5, 6, 7, 8, 9, 10, 11, 12]
      [0, 0, 0, 0, 0, 0] 2 3 97 (by decide)).2 (by decide)⟩

theorem xread_neg (bs : List Nat) (len : Int) (h : len < 0) :
    xread bs len = (none, bs) := by
  unfold xread
  rw [if_pos h]

theorem xread_ok (bs : List Nat) (len : Int) (h1 : ¬ len < 0)
    (h2 : len.toNat ≤ bs.length) :
    xread bs len = (some (bs.take len.toNat), bs.drop len.toNat) := by
  unfold xread
  rw [if_neg h1, if_pos h2]

theorem xread_short (bs : List Nat) (len : Int) (h1 : ¬ len < 0)
    (h2 : ¬ len.toNat ≤ bs.length) :
    xread bs len = (none, []) := by
  unfold xread
  rw [if_neg h1, if_neg h2]

theorem word32_append (p bs : List Nat) (hp : p.length = 12) (k : Nat)
    (hk : 12 ≤ k) :
    word32 (p ++ bs) k = word32 bs (k - 12) := by
  have hgd : ∀ m, 12 ≤ m → (p ++ bs).getD m 0 = bs.getD (m - 12) 0 := by
    intro m hm
    rw [List.getD_append_right]
    · rw [hp]
    · omega
  unfold word32
  rw [hgd k hk, hgd (k + 1) (by omega), hgd (k + 2) (by omega),
    hgd (k + 3) (by omega),
    show k + 1 - 12 = k - 12 + 1 from by omega,
    show k + 2 - 12 = k - 12 + 2 from by omega,
    show k + 3 - 12 = k - 12 + 3 from by omega]

/-- The shape of `fontOpen` on a stream split as 12 leading bytes
(signature and version, never inspected) and the rest. -/
theorem fontOpen_append_form (p bs : List Nat) (hp : p.length = 12) :
    fontOpen (some (p ++ bs))
      = (if bs.length < 12 then none
         else
           let gr := xread (bs.drop 12) (wrap32 (4 * toInt32 (word32 bs 0)))
           let dr := xread gr.2
             (wrap32 (wrap32 (toInt32 (word32 bs 0) * toInt32 (word32 bs 4))
               * toInt32 (word32 bs 8)))
           match gr.1, dr.1 with
           | some gb, some db =>
               some ⟨toInt32 (word32 bs 0), toInt32 (word32 bs 4),
                 toInt32 (word32 bs 8), decInts gb, db⟩
           | _, _ => none) := by
  have hw12 : word32 (p ++ bs) 12 = word32 bs 0 := word32_append p bs hp 12 le_rfl
  have hw16 : word32 (p ++ bs) 16 = word32 bs 4 := word32_append p bs hp 16 (by omega)
  have hw20 : word32 (p ++ bs) 20 = word32 bs 8 := word32_append p bs hp 20 (by omega)
  have hdrop : (p ++ bs).drop 24 = bs.drop 12 := by
    rw [show (24 : Nat) = p.length + 12 from by omega, List.drop_append]
  have hlen : (p ++ bs).length = 12 + bs.length := by
    rw [List.length_append, hp]
  simp only [fontOpen, glyphsLen, dataLen]
  rw [hw12, hw16, hw20, hdrop, hlen]
  by_cases hb : bs.length < 12
  · rw [if_pos (by omega : 12 + bs.length < 24), if_pos hb]
  · rw [if_neg (by omega : ¬ 12 + bs.length < 24), if_neg hb]

/-- Claim C10: `font_open` never inspects the signature or version
bytes of the header: replacing the first 12 bytes of the resource
changes nothing in the outcome; it fails exactly when the file cannot
be opened, the 24-byte header read is short, or either array read (n
codes of 4 bytes, then n*rows*cols bitmap bytes, lengths computed in
the wrapping machine arithmetic) is short, and succeeds otherwise. -/
theorem font_open_spec :
    fontOpen none = none
    ∧ (∀ p q bs : List Nat, p.length = 12 → q.length = 12 →
        fontOpen (some (p ++ bs)) = fontOpen (some (q ++ bs)))
    ∧ (∀ bs : List Nat,
        (fontOpen (some bs)).isSome = true ↔
          (24 ≤ bs.length ∧ 0 ≤ glyphsLen bs
            ∧ (glyphsLen bs).toNat ≤ bs.length - 24
            ∧ 0 ≤ dataLen bs
            ∧ (dataLen bs).toNat ≤ bs.length - 24 - (glyphsLen bs).toNat)) := by
  refine ⟨rfl, ?_, ?_⟩
  · intro p q bs hp hq
    rw [fontOpen_append_form p bs hp, fontOpen_append_form q bs hq]
  · intro bs
    have hld : (bs.drop 24).length = bs.length - 24 := List.length_drop 24 bs
    simp only [fontOpen]
    by_cases h24 : bs.length < 24
    · rw [if_pos h24]
      simp
      omega
    · rw [if_neg h24]
      by_cases hg0 : glyphsLen bs < 0
      · rw [xread_neg _ _ hg0]
        simp
        omega
      · by_cases hglen : (glyphsLen bs).toNat ≤ (bs.drop 24).length
        · rw [xread_ok _ _ hg0 hglen]
          have hld2 : ((bs.drop 24).drop (glyphsLen bs).toNat).length
              = bs.length - 24 - (glyphsLen bs).toNat := by
            rw [List.length_drop, hld]
          by_cases hd0 : dataLen bs < 0
          · rw [xread_neg _ _ hd0]
            simp
            omega
          · by_cases hdlen : (dataLen bs).toNat
                ≤ ((bs.drop 24).drop (glyphsLen bs).toNat).length
            · rw [xread_ok _ _ hd0 hdlen]
              simp
              omega
            · rw [xread_short _ _ hd0 hdlen]
              simp
              omega
        · rw [xread_short _ _ hg0 hglen]
          simp
          omega

/-- Closed instance of `font_open_spec`: a one-glyph resource is
loaded identically whether its first 12 bytes are all zero or all 99,
and its successful open matches the exact length condition. -/
theorem font_open_spec_witness :
    fontOpen (some (List.replicate 12 0
        ++ ([1, 0, 0, 0] ++ [1, 0, 0, 0] ++ [2, 0, 0, 0] ++ [65, 0, 0, 0] ++ [7, 8])))
      = fontOpen (some (List.replicate 12 99
        ++ ([1, 0, 0, 0] ++ [1, 0, 0, 0] ++ [2, 0, 0, 0] ++ [65, 0, 0, 0] ++ [7, 8])))
    ∧ (fontOpen (some (List.replicate 24 0))).isSome = true :=
  ⟨font_open_spec.2.1 (List.replicate 12 0) (List.replicate 12 99)
      ([1, 0, 0, 0] ++ [1, 0, 0, 0] ++ [2, 0, 0, 0] ++ [65, 0, 0, 0] ++ [7, 8])
      (by decide) (by decide),
    (font_open_spec.2.2 (List.replicate 24 0)).mpr (by decide)⟩

end Fbpad
